import Mathlib

/-!
# Verification of the change-tracking and reconciliation engine

Shallow embedding of the `DiffManager` class (`src/diffManager.ts`) and the
`ClaudeWatcher` activity monitor (`src/claudeWatcher.ts`) of the
claude-diff-extension repository.

Modelling choices:
* JavaScript `Map<string, T>` objects (the snapshot store and the diff
  session) are embedded as association lists `List (String × T)` with
  insertion-order preserving `mSet` (replace-in-place or append) and first
  match `mGet?`, matching JS `Map` semantics for unique keys.
* The filesystem is a flat association list from absolute path to textual
  content; a missing key is a missing file.  `fs.readFileSync` /
  `fs.existsSync` / `fs.writeFileSync` are lookups and updates;
  `fs.unlinkSync` fails (throws `ENOENT`) on a missing path, modelled by
  returning `none`.
* Directory walks (`snapshotDirectory`, the `walk` closure of
  `loadProposedChanges`) traverse the flat filesystem by path-prefix
  filtering; path strings are joined with `"/"`.
* A thrown-and-propagated JS exception is modelled by an `err : Option
  String` field carrying the state at the throw point; code after the throw
  point does not run.
* The `vscode.EventEmitter` notification (`_onChangesReady.fire`) is
  modelled by a `fired : Bool` result field; the chokidar file watcher is
  modelled by a `watching` flag on the watcher state plus an explicit event
  delivery function.
-/

namespace ClaudeDiff

/-! ## Association-list maps (JS `Map` embedding) -/

/-- First-match lookup, JS `Map.get`. -/
def mGet? {α : Type} : List (String × α) → String → Option α
  | [], _ => none
  | e :: rest, k => if e.1 = k then some e.2 else mGet? rest k

/-- Insertion-order preserving update, JS `Map.set`: replaces the entry in
place when the key is present, otherwise appends. -/
def mSet {α : Type} : List (String × α) → String → α → List (String × α)
  | [], k, v => [(k, v)]
  | e :: rest, k, v => if e.1 = k then (k, v) :: rest else e :: mSet rest k v

theorem mGet?_set_self {α : Type} (ds : List (String × α)) (k : String) (v : α) :
    mGet? (mSet ds k v) k = some v := by
  induction ds with
  | nil => simp [mSet, mGet?]
  | cons e rest ih =>
    by_cases h : e.1 = k
    · simp [mSet, mGet?, h]
    · simp [mSet, mGet?, h, ih]

theorem mGet?_set_ne {α : Type} (ds : List (String × α)) (k k' : String) (v : α)
    (h : k ≠ k') : mGet? (mSet ds k v) k' = mGet? ds k' := by
  induction ds with
  | nil => simp [mSet, mGet?, h]
  | cons e rest ih =>
    by_cases he : e.1 = k
    · simp [mSet, mGet?, he, h]
    · by_cases he' : e.1 = k'
      · simp [mSet, mGet?, he, he', Ne.symm h]
      · simp [mSet, mGet?, he, he', ih]

theorem mSet_ne_nil {α : Type} (ds : List (String × α)) (k : String) (v : α) :
    mSet ds k v ≠ [] := by
  cases ds with
  | nil => simp [mSet]
  | cons e rest =>
    by_cases h : e.1 = k <;> simp [mSet, h]

theorem mGet?_mem {α : Type} {ds : List (String × α)} {k : String} {v : α}
    (h : mGet? ds k = some v) : (k, v) ∈ ds := by
  induction ds with
  | nil => simp [mGet?] at h
  | cons e rest ih =>
    by_cases he : e.1 = k
    · simp [mGet?, he] at h
      have : (k, v) = e := by cases e; simp_all
      rw [this]
      exact List.mem_cons_self _ _
    · simp [mGet?, he] at h
      exact List.mem_cons_of_mem _ (ih h)

theorem mGet?_of_mem_nodup {α : Type} {ds : List (String × α)} {k : String} {v : α}
    (hnd : (ds.map (·.1)).Nodup) (h : (k, v) ∈ ds) : mGet? ds k = some v := by
  induction ds with
  | nil => simp at h
  | cons e rest ih =>
    simp only [List.map_cons, List.nodup_cons] at hnd
    rcases List.mem_cons.mp h with h1 | h2
    · subst h1; simp [mGet?]
    · have hk : e.1 ≠ k := by
        intro hek
        exact hnd.1 (by simpa [hek] using List.mem_map_of_mem (·.1) h2)
      simp [mGet?, hk, ih hnd.2 h2]

theorem mem_mSet {α : Type} {ds : List (String × α)} {k : String} {v : α}
    {e : String × α} (h : e ∈ mSet ds k v) : e ∈ ds ∨ e = (k, v) := by
  induction ds with
  | nil => simp [mSet] at h; right; exact h
  | cons hd rest ih =>
    by_cases hh : hd.1 = k
    · simp only [mSet, if_pos hh] at h
      rcases List.mem_cons.mp h with h1 | h2
      · right; exact h1
      · left; exact List.mem_cons_of_mem _ h2
    · simp only [mSet, if_neg hh] at h
      rcases List.mem_cons.mp h with h1 | h2
      · left; exact h1 ▸ List.mem_cons_self _ _
      · rcases ih h2 with h3 | h4
        · left; exact List.mem_cons_of_mem _ h3
        · right; exact h4

/-- Lookup after removing every entry with key `k` (the `fs.unlinkSync`
effect): the removed key reads as absent. -/
theorem mGet?_removeKey_self {α : Type} (ds : List (String × α)) (k : String) :
    mGet? (ds.filter (fun e => !decide (e.1 = k))) k = none := by
  induction ds with
  | nil => simp [mGet?]
  | cons e rest ih =>
    by_cases he : e.1 = k
    · simp [List.filter_cons, he, ih]
    · simp [List.filter_cons, he, mGet?, ih]

theorem mGet?_removeKey_ne {α : Type} (ds : List (String × α)) (k q : String)
    (h : q ≠ k) : mGet? (ds.filter (fun e => !decide (e.1 = k))) q = mGet? ds q := by
  induction ds with
  | nil => simp
  | cons e rest ih =>
    by_cases he : e.1 = k
    · have hq : e.1 ≠ q := fun hq => h (hq ▸ he)
      simp [List.filter_cons, he, mGet?, hq, ih, Ne.symm h]
    · by_cases hq : e.1 = q
      · simp [List.filter_cons, he, mGet?, hq, h]
      · simp [List.filter_cons, he, mGet?, hq, ih]

/-! ## Filesystem model -/

/-- Flat filesystem: absolute path ↦ textual content; absent key = no file. -/
abbrev FS := List (String × String)

/-- `fs.readFileSync(p, 'utf8')`, guarded by existence: `none` = no file. -/
def fsRead? (fs : FS) (p : String) : Option String := mGet? fs p

/-- `fs.existsSync(p)` for a file path. -/
def fsExistsSync (fs : FS) (p : String) : Bool := (mGet? fs p).isSome

/-- `fs.writeFileSync(p, c, 'utf8')`. -/
def fsWriteFileSync (fs : FS) (p c : String) : FS := mSet fs p c

/-- `fs.unlinkSync(p)`: removes the file, or throws `ENOENT` (modelled as
`none`) when the path does not exist. -/
def fsUnlinkSync? (fs : FS) (p : String) : Option FS :=
  if (mGet? fs p).isSome then some (fs.filter (fun e => !decide (e.1 = p))) else none

/-! ## Path helpers (flat rendering of `path.join` / `path.relative`) -/

/-- `s` lies strictly under the directory prefix `pre` (`pre` includes the
trailing separator). -/
def strIsUnder (pre s : String) : Bool := decide (pre.data <+: s.data)

/-- Strip a directory prefix: `path.relative(dir, s)` for `s` under `dir`. -/
def strStrip (pre s : String) : String := ⟨s.data.drop pre.data.length⟩

/-- `path.relative(root, fp)` of the source, for the flat path model. -/
def relPath (root fp : String) : String :=
  if strIsUnder (root ++ "/") fp then strStrip (root ++ "/") fp else fp

/-- Lowercasing for `path.extname(fp).toLowerCase()`. -/
def strLower (s : String) : String := ⟨s.data.map Char.toLower⟩

/-- Splitting accumulator: structural rendering of `String.splitOn` for a
single-character separator. -/
def splitAux (c : Char) : List Char → List Char → List String
  | [], acc => [⟨acc.reverse⟩]
  | x :: xs, acc =>
      if x = c then (⟨acc.reverse⟩ : String) :: splitAux c xs []
      else splitAux c xs (x :: acc)

/-- `s.split('/')`-style splitting on one separator character. -/
def strSplit (c : Char) (s : String) : List String := splitAux c s.data []

/-- `path.extname`: extension of the last path segment including the dot;
empty for dotfiles such as `.env` and for names without a dot. -/
def extname (fp : String) : String :=
  let base := (strSplit '/' fp).getLastD ""
  let rev := base.data.reverse
  let ext := rev.takeWhile (fun c => decide (c ≠ '.'))
  match rev.drop ext.length with
  | ['.'] => ""
  | '.' :: _ :: _ => ⟨'.' :: ext.reverse⟩
  | _ => ""

theorem strStrip_append (pre s : String) (h : strIsUnder pre s = true) :
    pre ++ strStrip pre s = s := by
  have hp : pre.data <+: s.data := of_decide_eq_true h
  obtain ⟨t, ht⟩ := hp
  apply String.ext
  rw [String.data_append]
  show pre.data ++ s.data.drop pre.data.length = s.data
  rw [← ht, List.drop_left]

/-! ## Data model (`FileDiff`, `DiffManager` state) -/

/-- `status: 'pending' | 'accepted' | 'rejected'`. -/
inductive DiffStatus where
  | pending
  | accepted
  | rejected
deriving DecidableEq, Repr

/-- The `FileDiff` interface of `diffManager.ts`. -/
structure FileDiff where
  filePath : String
  relativePath : String
  before : String
  after : String
  patch : String
  status : DiffStatus
  isNew : Bool
  isDeleted : Bool
deriving DecidableEq, Repr

/-- Model of the external `diff` npm library's `createTwoFilesPatch`:
a deterministic function of its arguments (unified-diff headers derived
from the two file labels followed by hunk text); the exact hunk rendering
is irrelevant to every claim, only determinism and the labels matter. -/
def createTwoFilesPatch (oldFile newFile oldStr newStr oldHeader newHeader : String) :
    String :=
  "--- " ++ oldFile ++ "\t" ++ oldHeader ++ "\n" ++
  "+++ " ++ newFile ++ "\t" ++ newHeader ++ "\n" ++
  "@@\n-" ++ oldStr ++ "\n+" ++ newStr ++ "\n"

/-- The mutable state of the `DiffManager` class: the snapshot store
(`snapshots`) and the diff session (`diffs`), both JS `Map`s. -/
structure DiffManager where
  snapshots : List (String × String)
  diffs : List (String × FileDiff)
deriving DecidableEq, Repr

/-- The record built and stored by the loop body of `computeDiffs`. -/
def mkRecord (root fp before after : String) : FileDiff :=
  let rel := relPath root fp
  { filePath := fp
    relativePath := rel
    before := before
    after := after
    patch := createTwoFilesPatch ("a/" ++ rel) ("b/" ++ rel) before after "" ""
    status := .pending
    isNew := decide (before = "" ∧ after ≠ "")
    isDeleted := decide (before ≠ "" ∧ after = "") }

/-! ## DiffManager operations -/

/-- `snapshotFiles`: for each path, snapshot current disk content, or `''`
for a path that does not exist. -/
def DiffManager.snapshotFiles (m : DiffManager) (fs : FS) (filePaths : List String) :
    DiffManager :=
  { m with snapshots :=
      filePaths.foldl (fun sn fp => mSet sn fp ((fsRead? fs fp).getD "")) m.snapshots }

/-- The directory names skipped by `snapshotDirectory`. -/
def ignoreDirs : List String := ["node_modules", ".git", "dist", "out", ".claude"]

/-- The extension whitelist of `isTextFile`. -/
def textExts : List String :=
  [".ts", ".tsx", ".js", ".jsx", ".json", ".md", ".txt", ".css", ".scss",
   ".html", ".xml", ".yaml", ".yml", ".py", ".go", ".rs", ".java", ".c",
   ".cpp", ".h", ".sh", ".env", ".toml", ".ini", ".sql"]

/-- `isTextFile` of `diffManager.ts`. -/
def isTextFile (fp : String) : Bool := decide (strLower (extname fp) ∈ textExts)

/-- The files reached by the recursive `snapshotDirectory(root)` walk, on
the flat filesystem model: every file strictly under `root` none of whose
path components (directory names or the file name, matching the
`ignore.has(entry.name)` test applied to every entry) is ignored, and whose
extension passes `isTextFile`. -/
def workspaceTextFiles (root : String) (fs : FS) : FS :=
  fs.filter (fun e =>
    strIsUnder (root ++ "/") e.1 &&
    ((strSplit '/' (strStrip (root ++ "/") e.1)).all (fun seg => !decide (seg ∈ ignoreDirs))) &&
    isTextFile e.1)

/-- `snapshotWorkspace`: no-op without a workspace root, else snapshot the
whole tree under `root`. -/
def DiffManager.snapshotWorkspace (m : DiffManager) (root : String) (fs : FS) :
    DiffManager :=
  if root = "" then m
  else { m with snapshots :=
          (workspaceTextFiles root fs).foldl (fun sn e => mSet sn e.1 e.2) m.snapshots }

/-- `getPendingDiffs`. -/
def DiffManager.getPendingDiffs (m : DiffManager) : List FileDiff :=
  (m.diffs.map (fun e => e.2)).filter (fun d => decide (d.status = DiffStatus.pending))

/-- `getAllDiffs`. -/
def DiffManager.getAllDiffs (m : DiffManager) : List FileDiff :=
  m.diffs.map (fun e => e.2)

/-- The loop body of `computeDiffs`: skip when snapshot equals disk, else
store a fresh pending record (overwriting any record at that path). -/
def computeStep (sn : List (String × String)) (root : String) (fs : FS)
    (ds : List (String × FileDiff)) (fp : String) : List (String × FileDiff) :=
  let before := (mGet? sn fp).getD ""
  let after := (fsRead? fs fp).getD ""
  if before = after then ds
  else mSet ds fp (mkRecord root fp before after)

/-- Result of `computeDiffs`: the new manager state, the returned list of
pending records, and whether the `onChangesReady` event fired. -/
structure ComputeResult where
  manager : DiffManager
  returned : List FileDiff
  fired : Bool
deriving DecidableEq, Repr

/-- `computeDiffs(changedPaths?)`: defaults to all snapshotted paths, clears
the diff map (`this.diffs.clear()`), rebuilds it from the given paths, fires
the event iff the resulting map is non-empty, and returns the pending list. -/
def DiffManager.computeDiffs (m : DiffManager) (root : String) (fs : FS)
    (changedPaths : Option (List String)) : ComputeResult :=
  let paths := changedPaths.getD (m.snapshots.map (fun e => e.1))
  let diffs2 := paths.foldl (computeStep m.snapshots root fs) []
  let m2 : DiffManager := { m with diffs := diffs2 }
  { manager := m2
    returned := m2.getPendingDiffs
    fired := decide (0 < diffs2.length) }

/-! ## loadProposedChanges (staged / dry-run ingestion) -/

/-- The workspace-relative path of a staged file (`path.relative(proposedDir, full)`). -/
def loadRel (proposedDir : String) (e : String × String) : String :=
  strStrip (proposedDir ++ "/") e.1

/-- The real-file path of a staged file (`path.join(root, relative)`). -/
def loadActual (root proposedDir : String) (e : String × String) : String :=
  root ++ "/" ++ loadRel proposedDir e

/-- The real file's current content, empty when absent. -/
def loadBefore (root proposedDir : String) (fs : FS) (e : String × String) : String :=
  (fsRead? fs (loadActual root proposedDir e)).getD ""

/-- The record stored by the `walk` closure of `loadProposedChanges`:
`isNew` iff the real file was absent/empty, `isDeleted` always `false`. -/
def loadRec (root proposedDir : String) (fs : FS) (e : String × String) : FileDiff :=
  let relative := loadRel proposedDir e
  let before := loadBefore root proposedDir fs e
  { filePath := loadActual root proposedDir e
    relativePath := relative
    before := before
    after := e.2
    patch := createTwoFilesPatch ("a/" ++ relative) ("b/" ++ relative) before e.2 "" ""
    status := .pending
    isNew := decide (before = "")
    isDeleted := false }

/-- One staged file processed by the `walk` closure. -/
def loadStep (root proposedDir : String) (fs : FS)
    (ds : List (String × FileDiff)) (e : String × String) : List (String × FileDiff) :=
  if loadBefore root proposedDir fs e = e.2 then ds
  else mSet ds (loadActual root proposedDir e) (loadRec root proposedDir fs e)

/-- `fs.existsSync(proposedDir)` for a directory on the flat model: some
file lies under it. -/
def dirExistsSync (fs : FS) (dir : String) : Bool :=
  fs.any (fun e => strIsUnder (dir ++ "/") e.1)

/-- Result of `loadProposedChanges`: new manager state and event flag. -/
structure LoadResult where
  manager : DiffManager
  fired : Bool
deriving DecidableEq, Repr

/-- `loadProposedChanges(proposedDir)`: early-return when the staging
directory is missing; otherwise walk every staged file, store a pending
record for each one differing from its real counterpart (into the existing,
NOT cleared, diff map), and fire iff the resulting map is non-empty. -/
def DiffManager.loadProposedChanges (m : DiffManager) (root : String) (fs : FS)
    (proposedDir : String) : LoadResult :=
  if dirExistsSync fs proposedDir then
    let staged := fs.filter (fun e => strIsUnder (proposedDir ++ "/") e.1)
    let diffs2 := staged.foldl (loadStep root proposedDir fs) m.diffs
    let m2 : DiffManager := { m with diffs := diffs2 }
    { manager := m2, fired := decide (0 < diffs2.length) }
  else { manager := m, fired := false }

/-! ## Accept / reject lifecycle -/

/-- `acceptFile(filePath)`: no-op when no record exists; otherwise marks the
record `accepted` and moves the snapshot baseline to `after`.  The method
performs no filesystem access at all (its type takes no `FS`). -/
def DiffManager.acceptFile (m : DiffManager) (filePath : String) : DiffManager :=
  match mGet? m.diffs filePath with
  | none => m
  | some diff =>
      { snapshots := mSet m.snapshots filePath diff.after
        diffs := mSet m.diffs filePath { diff with status := .accepted } }

/-- Result of `rejectFile` / `rejectAll`: the manager state, the filesystem,
and `err = some msg` when a filesystem exception escaped (state fields then
hold the values at the throw point). -/
structure RejectResult where
  manager : DiffManager
  fs : FS
  err : Option String
deriving DecidableEq, Repr

/-- `rejectFile(filePath)`: no-op when no record exists; for `isNew` records
deletes the file (`unlinkSync` throws `ENOENT` on a missing path, in which
case the status assignment is never reached); otherwise rewrites the file
with `before`.  On success marks the record `rejected`. -/
def DiffManager.rejectFile (m : DiffManager) (fs : FS) (filePath : String) :
    RejectResult :=
  match mGet? m.diffs filePath with
  | none => { manager := m, fs := fs, err := none }
  | some diff =>
      if diff.isNew then
        match fsUnlinkSync? fs filePath with
        | none => { manager := m, fs := fs, err := some "ENOENT" }
        | some fs2 =>
            { manager := { m with diffs := mSet m.diffs filePath { diff with status := .rejected } }
              fs := fs2
              err := none }
      else
        { manager := { m with diffs := mSet m.diffs filePath { diff with status := .rejected } }
          fs := fsWriteFileSync fs filePath diff.before
          err := none }

/-- The `for (const diff of this.diffs.values())` loop of `acceptAll`,
iterating the session's keys and re-reading each record at visit time (JS
iterates live `Map` values; keys are never added or removed by
`acceptFile`). -/
def acceptAllGo : List String → DiffManager → DiffManager
  | [], m => m
  | k :: rest, m =>
      match mGet? m.diffs k with
      | none => acceptAllGo rest m
      | some diff =>
          if diff.status = .pending then acceptAllGo rest (m.acceptFile diff.filePath)
          else acceptAllGo rest m

/-- `acceptAll()`. -/
def DiffManager.acceptAll (m : DiffManager) : DiffManager :=
  acceptAllGo (m.diffs.map (fun e => e.1)) m

/-- The loop of `rejectAll`; an exception thrown by `rejectFile` propagates
(there is no `try`/`catch`), aborting the remaining iterations. -/
def rejectAllGo : List String → DiffManager → FS → RejectResult
  | [], m, fs => { manager := m, fs := fs, err := none }
  | k :: rest, m, fs =>
      match mGet? m.diffs k with
      | none => rejectAllGo rest m fs
      | some diff =>
          if diff.status = .pending then
            match m.rejectFile fs diff.filePath with
            | { manager := m2, fs := fs2, err := none } => rejectAllGo rest m2 fs2
            | { manager := m2, fs := fs2, err := some e } =>
                { manager := m2, fs := fs2, err := some e }
          else rejectAllGo rest m fs

/-- `rejectAll()`. -/
def DiffManager.rejectAll (m : DiffManager) (fs : FS) : RejectResult :=
  rejectAllGo (m.diffs.map (fun e => e.1)) m fs

/-- `clearDiffs()`. -/
def DiffManager.clearDiffs (_m : DiffManager) : DiffManager :=
  { snapshots := [], diffs := [] }

/-- `hasPendingDiffs()`. -/
def DiffManager.hasPendingDiffs (m : DiffManager) : Bool :=
  decide (0 < m.getPendingDiffs.length)

/-! ## Activity monitor (`claudeWatcher.ts`) -/

/-- The operating mode supplied by the mode manager. -/
inductive Mode where
  | auto
  | propose
  | ask
deriving DecidableEq, Repr

/-- The mutable state of `ClaudeWatcher`: the accumulated changed-path set,
the activity flag, and whether a chokidar watcher with `add`/`change`
handlers is currently installed (`fsWatcher`). -/
structure ClaudeWatcher where
  changedFiles : List String
  isClaudeActive : Bool
  watching : Bool
deriving DecidableEq, Repr

/-- `this.changedFiles.add(fp)` (JS `Set` semantics: dedup, insertion order). -/
def addChanged (w : ClaudeWatcher) (fp : String) : ClaudeWatcher :=
  if fp ∈ w.changedFiles then w
  else { w with changedFiles := w.changedFiles ++ [fp] }

/-- Delivery of one chokidar `add`/`change`/`unlink` notification: recorded
only while a watcher is installed. -/
def onFsEvent (w : ClaudeWatcher) (fp : String) : ClaudeWatcher :=
  if w.watching then addChanged w fp else w

/-- `onClaudeStarted(root)`: activity on, changed set cleared, then the
mode-specific start action — `propose` watches the staging directory,
`auto` snapshots the workspace and watches it, `ask` only snapshots the
workspace and installs no watcher. -/
def onClaudeStarted (mode : Mode) (root : String) (fs : FS)
    (w : ClaudeWatcher) (m : DiffManager) : ClaudeWatcher × DiffManager :=
  let w2 := { w with isClaudeActive := true, changedFiles := [] }
  match mode with
  | .propose => ({ w2 with watching := true }, m)
  | .auto => ({ w2 with watching := true }, m.snapshotWorkspace root fs)
  | .ask => ({ w2 with watching := false }, m.snapshotWorkspace root fs)

/-- Result of `onClaudeFinished`. -/
structure FinishResult where
  watcher : ClaudeWatcher
  manager : DiffManager
  fired : Bool
deriving DecidableEq, Repr

/-- `onClaudeFinished(root, proposedDir)`: activity off, watcher closed,
then for `propose` `loadProposedChanges(proposedDir)`, and for `auto` or
`ask` `computeDiffs([...this.changedFiles])` — note the spread of the
observed changed-file set, never the no-argument default. -/
def onClaudeFinished (mode : Mode) (root proposedDir : String) (fs : FS)
    (w : ClaudeWatcher) (m : DiffManager) : FinishResult :=
  let w2 := { w with isClaudeActive := false, watching := false }
  match mode with
  | .propose =>
      let r := m.loadProposedChanges root fs proposedDir
      { watcher := w2, manager := r.manager, fired := r.fired }
  | .auto =>
      let r := m.computeDiffs root fs (some w.changedFiles)
      { watcher := w2, manager := r.manager, fired := r.fired }
  | .ask =>
      let r := m.computeDiffs root fs (some w.changedFiles)
      { watcher := w2, manager := r.manager, fired := r.fired }

/-! ## Lemmas about the `computeDiffs` fold -/

theorem computeFold_frame (sn : List (String × String)) (root : String) (fs : FS) :
    ∀ (paths : List String) (init : List (String × FileDiff)) (p : String),
      p ∉ paths →
      mGet? (paths.foldl (computeStep sn root fs) init) p = mGet? init p := by
  intro paths
  induction paths with
  | nil => intro init p _; rfl
  | cons q rest ih =>
    intro init p hp
    have hq : p ≠ q := fun h => hp (h ▸ List.mem_cons_self q rest)
    have hr : p ∉ rest := fun h => hp (List.mem_cons_of_mem q h)
    rw [List.foldl_cons, ih _ p hr]
    unfold computeStep
    by_cases hs : (mGet? sn q).getD "" = (fsRead? fs q).getD ""
    · simp [hs]
    · simp [hs, mGet?_set_ne _ _ _ _ (Ne.symm hq)]

theorem computeFold_mem (sn : List (String × String)) (root : String) (fs : FS) :
    ∀ (paths : List String) (init : List (String × FileDiff)) (p : String),
      p ∈ paths →
      (mGet? sn p).getD "" ≠ (fsRead? fs p).getD "" →
      mGet? (paths.foldl (computeStep sn root fs) init) p =
        some (mkRecord root p ((mGet? sn p).getD "") ((fsRead? fs p).getD "")) := by
  intro paths
  induction paths with
  | nil => intro init p hp; simp at hp
  | cons q rest ih =>
    intro init p hp hne
    by_cases hr : p ∈ rest
    · exact ih _ p hr hne
    · have hq : p = q := by
        rcases List.mem_cons.mp hp with h | h
        · exact h
        · exact absurd h hr
      subst hq
      rw [List.foldl_cons, computeFold_frame sn root fs rest _ p hr]
      unfold computeStep
      simp [hne, mGet?_set_self]

theorem computeFold_provenance (sn : List (String × String)) (root : String) (fs : FS) :
    ∀ (paths : List String) (init : List (String × FileDiff)) (p : String) (r : FileDiff),
      mGet? (paths.foldl (computeStep sn root fs) init) p = some r →
      mGet? init p = some r ∨
        (p ∈ paths ∧ (mGet? sn p).getD "" ≠ (fsRead? fs p).getD "" ∧
          r = mkRecord root p ((mGet? sn p).getD "") ((fsRead? fs p).getD "")) := by
  intro paths
  induction paths with
  | nil => intro init p r h; exact Or.inl h
  | cons q rest ih =>
    intro init p r h
    rw [List.foldl_cons] at h
    rcases ih _ p r h with h1 | h2
    · unfold computeStep at h1
      by_cases hs : (mGet? sn q).getD "" = (fsRead? fs q).getD ""
      · rw [if_pos hs] at h1
        exact Or.inl h1
      · rw [if_neg hs] at h1
        by_cases hpq : p = q
        · subst hpq
          rw [mGet?_set_self] at h1
          exact Or.inr ⟨List.mem_cons_self _ _, hs, (Option.some_injective _ h1).symm⟩
        · rw [mGet?_set_ne _ _ _ _ (Ne.symm hpq)] at h1
          exact Or.inl h1
    · exact Or.inr ⟨List.mem_cons_of_mem _ h2.1, h2.2⟩

theorem computeFold_all_skip (sn : List (String × String)) (root : String) (fs : FS) :
    ∀ (paths : List String) (init : List (String × FileDiff)),
      (∀ fp ∈ paths, (mGet? sn fp).getD "" = (fsRead? fs fp).getD "") →
      paths.foldl (computeStep sn root fs) init = init := by
  intro paths
  induction paths with
  | nil => intro init _; rfl
  | cons q rest ih =>
    intro init hall
    rw [List.foldl_cons]
    have hq := hall q (List.mem_cons_self _ _)
    unfold computeStep
    rw [if_pos hq]
    exact ih init (fun fp hfp => hall fp (List.mem_cons_of_mem _ hfp))

/-! ## Lemmas about the `loadProposedChanges` fold -/

theorem loadFold_provenance (root pd : String) (fs : FS) :
    ∀ (staged : List (String × String)) (init : List (String × FileDiff))
      (p : String) (r : FileDiff),
      mGet? (staged.foldl (loadStep root pd fs) init) p = some r →
      mGet? init p = some r ∨
        ∃ e ∈ staged, loadBefore root pd fs e ≠ e.2 ∧
          p = loadActual root pd e ∧ r = loadRec root pd fs e := by
  intro staged
  induction staged with
  | nil => intro init p r h; exact Or.inl h
  | cons q rest ih =>
    intro init p r h
    rw [List.foldl_cons] at h
    rcases ih _ p r h with h1 | h2
    · unfold loadStep at h1
      by_cases hs : loadBefore root pd fs q = q.2
      · rw [if_pos hs] at h1
        exact Or.inl h1
      · rw [if_neg hs] at h1
        by_cases hpq : p = loadActual root pd q
        · rw [hpq, mGet?_set_self] at h1
          exact Or.inr ⟨q, List.mem_cons_self _ _, hs, hpq, (Option.some_injective _ h1).symm⟩
        · rw [mGet?_set_ne _ _ _ _ (Ne.symm hpq)] at h1
          exact Or.inl h1
    · obtain ⟨e, he, hrest⟩ := h2
      exact Or.inr ⟨e, List.mem_cons_of_mem _ he, hrest⟩

theorem loadFold_ne_nil (root pd : String) (fs : FS) :
    ∀ (staged : List (String × String)) (init : List (String × FileDiff)),
      init ≠ [] → staged.foldl (loadStep root pd fs) init ≠ [] := by
  intro staged
  induction staged with
  | nil => intro init h; exact h
  | cons q rest ih =>
    intro init h
    rw [List.foldl_cons]
    apply ih
    unfold loadStep
    by_cases hs : loadBefore root pd fs q = q.2
    · rw [if_pos hs]; exact h
    · rw [if_neg hs]; exact mSet_ne_nil _ _ _

/-! ## Record invariants (§3 of the specification) -/

/-- The §3 record invariant claimed for every diff record: created only on
real change, `isNew`/`isDeleted` mutually exclusive and characterised by
emptiness of `before`/`after`. -/
def recordInvariant (r : FileDiff) : Prop :=
  r.before ≠ r.after ∧
  ¬(r.isNew = true ∧ r.isDeleted = true) ∧
  (r.isNew = true ↔ (r.before = "" ∧ r.after ≠ "")) ∧
  (r.isDeleted = true ↔ (r.before ≠ "" ∧ r.after = ""))

/-- The invariant actually satisfied by staged-mode records: as above except
that `isDeleted` is constantly `false` (it does not track `after = ""`). -/
def stagedRecordInvariant (r : FileDiff) : Prop :=
  r.before ≠ r.after ∧
  ¬(r.isNew = true ∧ r.isDeleted = true) ∧
  (r.isNew = true ↔ (r.before = "" ∧ r.after ≠ "")) ∧
  r.isDeleted = false

theorem mkRecord_invariant (root fp before after : String) (h : before ≠ after) :
    recordInvariant (mkRecord root fp before after) := by
  unfold recordInvariant mkRecord
  refine ⟨h, ?_, ?_, ?_⟩
  · simp only [decide_eq_true_eq]
    rintro ⟨⟨hb, _⟩, ⟨hb2, _⟩⟩
    exact hb2 hb
  · simp [decide_eq_true_eq]
  · simp [decide_eq_true_eq]

theorem loadRec_invariant (root pd : String) (fs : FS) (e : String × String)
    (h : loadBefore root pd fs e ≠ e.2) :
    stagedRecordInvariant (loadRec root pd fs e) := by
  unfold stagedRecordInvariant loadRec
  refine ⟨h, ?_, ?_, rfl⟩
  · simp
  · simp only [decide_eq_true_eq]
    constructor
    · intro hb
      exact ⟨hb, fun ha => h (hb.trans ha.symm)⟩
    · intro hb
      exact hb.1

/-! ## Preservation of terminal records by the bulk loops -/

/-- Key/record coherence: every session entry is stored under its own
`filePath` (true of every record the manager itself creates). -/
def keysMatch (m : DiffManager) : Prop :=
  ∀ e ∈ m.diffs, e.1 = e.2.filePath

theorem keysMatch_acceptFile {m : DiffManager} (hwf : keysMatch m) (p : String) :
    keysMatch (m.acceptFile p) := by
  unfold DiffManager.acceptFile
  cases hg : mGet? m.diffs p with
  | none => exact hwf
  | some d =>
    intro e he
    rcases mem_mSet he with h1 | h2
    · exact hwf e h1
    · have hd : (p, d) ∈ m.diffs := mGet?_mem hg
      have : p = d.filePath := hwf _ hd
      rw [h2]
      exact this


/-! Equation lemmas exposing the branch structure of the accept/reject
operations and their bulk loops, for use in the proofs below. -/

theorem acceptFile_eq_none {m : DiffManager} {p : String}
    (hg : mGet? m.diffs p = none) : m.acceptFile p = m := by
  unfold DiffManager.acceptFile
  rw [hg]

theorem acceptFile_eq_some {m : DiffManager} {p : String} {d : FileDiff}
    (hg : mGet? m.diffs p = some d) :
    m.acceptFile p =
      { snapshots := mSet m.snapshots p d.after
        diffs := mSet m.diffs p { d with status := .accepted } } := by
  unfold DiffManager.acceptFile
  rw [hg]

theorem rejectFile_eq_none {m : DiffManager} {fs : FS} {p : String}
    (hg : mGet? m.diffs p = none) :
    m.rejectFile fs p = { manager := m, fs := fs, err := none } := by
  unfold DiffManager.rejectFile
  rw [hg]

theorem rejectFile_eq_new_missing {m : DiffManager} {fs : FS} {p : String} {d : FileDiff}
    (hg : mGet? m.diffs p = some d) (hn : d.isNew = true)
    (hu : fsUnlinkSync? fs p = none) :
    m.rejectFile fs p = { manager := m, fs := fs, err := some "ENOENT" } := by
  unfold DiffManager.rejectFile
  rw [hg]
  show (if d.isNew = true then _ else _) = _
  rw [if_pos hn, hu]

theorem rejectFile_eq_new_exists {m : DiffManager} {fs : FS} {p : String} {d : FileDiff}
    {fs2 : FS} (hg : mGet? m.diffs p = some d) (hn : d.isNew = true)
    (hu : fsUnlinkSync? fs p = some fs2) :
    m.rejectFile fs p =
      { manager := { m with diffs := mSet m.diffs p { d with status := .rejected } }
        fs := fs2
        err := none } := by
  unfold DiffManager.rejectFile
  rw [hg]
  show (if d.isNew = true then _ else _) = _
  rw [if_pos hn, hu]

theorem rejectFile_eq_mod {m : DiffManager} {fs : FS} {p : String} {d : FileDiff}
    (hg : mGet? m.diffs p = some d) (hn : d.isNew = false) :
    m.rejectFile fs p =
      { manager := { m with diffs := mSet m.diffs p { d with status := .rejected } }
        fs := fsWriteFileSync fs p d.before
        err := none } := by
  unfold DiffManager.rejectFile
  rw [hg]
  show (if d.isNew = true then _ else _) = _
  rw [hn]
  simp

theorem acceptAllGo_cons_none {k : String} {rest : List String} {m : DiffManager}
    (hg : mGet? m.diffs k = none) :
    acceptAllGo (k :: rest) m = acceptAllGo rest m := by
  conv_lhs => unfold acceptAllGo
  rw [hg]

theorem acceptAllGo_cons_some {k : String} {rest : List String} {m : DiffManager}
    {d : FileDiff} (hg : mGet? m.diffs k = some d) :
    acceptAllGo (k :: rest) m =
      if d.status = .pending then acceptAllGo rest (m.acceptFile d.filePath)
      else acceptAllGo rest m := by
  conv_lhs => unfold acceptAllGo
  rw [hg]

theorem rejectAllGo_cons_none {k : String} {rest : List String} {m : DiffManager}
    {fs : FS} (hg : mGet? m.diffs k = none) :
    rejectAllGo (k :: rest) m fs = rejectAllGo rest m fs := by
  conv_lhs => unfold rejectAllGo
  rw [hg]

theorem rejectAllGo_cons_some {k : String} {rest : List String} {m : DiffManager}
    {fs : FS} {d : FileDiff} (hg : mGet? m.diffs k = some d) :
    rejectAllGo (k :: rest) m fs =
      if d.status = .pending then
        match m.rejectFile fs d.filePath with
        | { manager := m2, fs := fs2, err := none } => rejectAllGo rest m2 fs2
        | { manager := m2, fs := fs2, err := some e } =>
            { manager := m2, fs := fs2, err := some e }
      else rejectAllGo rest m fs := by
  conv_lhs => unfold rejectAllGo
  rw [hg]

theorem keysMatch_rejectFile {m : DiffManager} {fs : FS} (hwf : keysMatch m)
    (p : String) : keysMatch (m.rejectFile fs p).manager := by
  cases hg : mGet? m.diffs p with
  | none => rw [rejectFile_eq_none hg]; exact hwf
  | some d =>
    have hd : p = d.filePath := hwf _ (mGet?_mem hg)
    have hstep : ∀ e ∈ mSet m.diffs p { d with status := DiffStatus.rejected },
        e.1 = e.2.filePath := by
      intro e he
      rcases mem_mSet he with h1 | h2
      · exact hwf e h1
      · rw [h2]; exact hd
    by_cases hn : d.isNew = true
    · cases hu : fsUnlinkSync? fs p with
      | none => rw [rejectFile_eq_new_missing hg hn hu]; exact hwf
      | some fs2 => rw [rejectFile_eq_new_exists hg hn hu]; exact hstep
    · rw [rejectFile_eq_mod hg (Bool.not_eq_true _ ▸ hn)]
      exact hstep

theorem acceptAllGo_preserves (p : String) (d : FileDiff) :
    ∀ (ks : List String) (m : DiffManager),
      keysMatch m → mGet? m.diffs p = some d → d.status ≠ .pending →
      mGet? (acceptAllGo ks m).diffs p = some d := by
  intro ks
  induction ks with
  | nil => intro m _ h _; exact h
  | cons k rest ih =>
    intro m hwf h hs
    cases hg : mGet? m.diffs k with
    | none => rw [acceptAllGo_cons_none hg]; exact ih m hwf h hs
    | some d2 =>
      rw [acceptAllGo_cons_some hg]
      by_cases hp : d2.status = .pending
      · rw [if_pos hp]
        have hk2 : k = d2.filePath := hwf _ (mGet?_mem hg)
        have hkp : k ≠ p := by
          intro hkp
          rw [hkp, h] at hg
          cases hg
          exact hs hp
        apply ih
        · exact keysMatch_acceptFile hwf _
        · rw [← hk2, acceptFile_eq_some hg]
          simp only []
          rw [mGet?_set_ne _ _ _ _ hkp]
          exact h
        · exact hs
      · rw [if_neg hp]
        exact ih m hwf h hs

theorem rejectAllGo_preserves (p : String) (d : FileDiff) :
    ∀ (ks : List String) (m : DiffManager) (fs : FS),
      keysMatch m → mGet? m.diffs p = some d → d.status ≠ .pending →
      mGet? ((rejectAllGo ks m fs).manager).diffs p = some d ∧
      fsRead? ((rejectAllGo ks m fs).fs) p = fsRead? fs p := by
  intro ks
  induction ks with
  | nil => intro m fs _ h _; exact ⟨h, rfl⟩
  | cons k rest ih =>
    intro m fs hwf h hs
    cases hg : mGet? m.diffs k with
    | none => rw [rejectAllGo_cons_none hg]; exact ih m fs hwf h hs
    | some d2 =>
      rw [rejectAllGo_cons_some hg]
      by_cases hp : d2.status = .pending
      · rw [if_pos hp]
        have hk2 : k = d2.filePath := hwf _ (mGet?_mem hg)
        have hkp : k ≠ p := by
          intro hkp
          rw [hkp, h] at hg
          cases hg
          exact hs hp
        have hwf2 : keysMatch (m.rejectFile fs d2.filePath).manager :=
          keysMatch_rejectFile hwf _
        by_cases hn : d2.isNew = true
        · cases hu : fsUnlinkSync? fs k with
          | none =>
            rw [← hk2, rejectFile_eq_new_missing hg hn hu]
            exact ⟨h, rfl⟩
          | some fs2 =>
            rw [← hk2, rejectFile_eq_new_exists hg hn hu]
            simp only []
            have hfs2 : fsRead? fs2 p = fsRead? fs p := by
              unfold fsUnlinkSync? at hu
              by_cases hex : (mGet? fs k).isSome
              · rw [if_pos hex] at hu
                cases hu
                exact mGet?_removeKey_ne _ _ _ (Ne.symm hkp)
              · rw [if_neg hex] at hu; cases hu
            have hm2 : mGet? (mSet m.diffs k { d2 with status := DiffStatus.rejected }) p
                = some d := by
              rw [mGet?_set_ne _ _ _ _ hkp]; exact h
            have hwf3 : keysMatch
                ({ m with diffs := mSet m.diffs k { d2 with status := DiffStatus.rejected } } :
                  DiffManager) := by
              have := hwf2
              rw [← hk2, rejectFile_eq_new_exists hg hn hu] at this
              exact this
            have := ih _ fs2 hwf3 hm2 hs
            exact ⟨this.1, this.2.trans hfs2⟩
        · have hn' : d2.isNew = false := Bool.not_eq_true _ ▸ hn
          rw [← hk2, rejectFile_eq_mod hg hn']
          simp only []
          have hfs2 : fsRead? (fsWriteFileSync fs k d2.before) p = fsRead? fs p := by
            unfold fsRead? fsWriteFileSync
            exact mGet?_set_ne _ _ _ _ hkp
          have hm2 : mGet? (mSet m.diffs k { d2 with status := DiffStatus.rejected }) p
              = some d := by
            rw [mGet?_set_ne _ _ _ _ hkp]; exact h
          have hwf3 : keysMatch
              ({ m with diffs := mSet m.diffs k { d2 with status := DiffStatus.rejected } } :
                DiffManager) := by
            have := hwf2
            rw [← hk2, rejectFile_eq_mod hg hn'] at this
            exact this
          have := ih _ (fsWriteFileSync fs k d2.before) hwf3 hm2 hs
          exact ⟨this.1, this.2.trans hfs2⟩
      · rw [if_neg hp]
        exact ih m fs hwf h hs

/-! ## Concrete fixtures for the closed theorems -/

def emptyWatcher : ClaudeWatcher := { changedFiles := [], isClaudeActive := false, watching := false }

def emptyManager : DiffManager := { snapshots := [], diffs := [] }

/-- Disk before an `ask`-mode session: one text file. -/
def askFS0 : FS := [("w/a.txt", "hello")]

/-- The watcher/manager state after the `running` transition in `ask` mode. -/
def askStart : ClaudeWatcher × DiffManager :=
  onClaudeStarted .ask "w" askFS0 emptyWatcher emptyManager

/-- Disk after the agent edited the snapshotted file during the session. -/
def askFS1 : FS := fsWriteFileSync askFS0 "w/a.txt" "hello world"

/-- The result of the `idle` transition in `ask` mode. -/
def askFinish : FinishResult :=
  onClaudeFinished .ask "w" "w/.claude/proposed" askFS1 askStart.1 askStart.2

/-- Claim C1: in `ask` mode the Idle transition is claimed to invoke
`computeDiffs` over the full previously-snapshotted path set, yielding a
pending diff for every snapshotted file whose disk content changed.  The
code instead passes the observed changed-file set, which is empty in `ask`
mode (no watcher is installed), so the changed snapshotted file `w/a.txt`
yields no pending diff and no notification — while `computeDiffs` with its
no-argument default over the same states would return a record.  This
contradicts the claim (and makes the `ask`-mode snapshot dead state), so
the claim marks a code bug. -/
theorem c1_ask_mode_never_diffs_snapshot :
    mGet? askStart.2.snapshots "w/a.txt" = some "hello" ∧
    fsRead? askFS1 "w/a.txt" = some "hello world" ∧
    askStart.1.watching = false ∧
    askStart.1.changedFiles = [] ∧
    askFinish.manager.getPendingDiffs = [] ∧
    askFinish.fired = false ∧
    (askStart.2.computeDiffs "w" askFS1 none).returned ≠ [] := by
  refine ⟨by decide, by decide, by decide, by decide, by decide, by decide, by decide⟩

/-- A pending record for an agent-created file (`isNew = true`). -/
def rNew4 : FileDiff := mkRecord "w" "w/n.txt" "" "x"

/-- A pending record for an ordinary modification (`isNew = false`). -/
def rMod4 : FileDiff := mkRecord "w" "w/m.txt" "old" "new"

/-- A session holding both records, the new-file record first. -/
def m4 : DiffManager := { snapshots := [], diffs := [("w/n.txt", rNew4), ("w/m.txt", rMod4)] }

/-- Disk where the agent-created file is already gone but the modified file
holds its post-edit content. -/
def fs4 : FS := [("w/m.txt", "new")]

/-- Claim C4: the claim says a failure while rejecting one file does not
abort `rejectAll` and every other pending record is still processed.  In
the code the `unlinkSync` exception for the missing new file propagates out
of the untried/uncaught loop: `rejectAll` stops, the second pending record
keeps status `pending` and its file keeps the un-restored content `"new"`
(the claim demands it be rejected and restored to `"old"`).  The spec's §7
propagation policy is the stated intent, so this marks a code bug. -/
theorem c4_reject_all_aborts :
    rNew4.status = DiffStatus.pending ∧
    rMod4.status = DiffStatus.pending ∧
    (DiffManager.rejectAll m4 fs4).err.isSome = true ∧
    (mGet? (DiffManager.rejectAll m4 fs4).manager.diffs "w/m.txt").map (fun r => r.status) =
      some DiffStatus.pending ∧
    fsRead? (DiffManager.rejectAll m4 fs4).fs "w/m.txt" = some "new" := by
  refine ⟨by decide, by decide, by decide, by decide, by decide⟩

/-- A session with a pending record for `w/b.txt` and a snapshot for
`w/a.txt` whose disk content is unchanged. -/
def m2c : DiffManager :=
  { snapshots := [("w/a.txt", "x")], diffs := [("w/b.txt", mkRecord "w" "w/b.txt" "1" "2")] }

def fs2c : FS := [("w/a.txt", "x")]

/-- Claim C2 counterexample: the claim says a `computeDiffs(paths)` call
leaves the diff record of every path outside `paths` unchanged.  Calling
`computeDiffs(["w/a.txt"])` (an unchanged path, so it produces nothing)
erases the existing record for `w/b.txt`: the code clears the whole diff
map first. -/
theorem c2_counterexample :
    mGet? m2c.diffs "w/b.txt" = some (mkRecord "w" "w/b.txt" "1" "2") ∧
    mGet? (DiffManager.computeDiffs m2c "w" fs2c (some ["w/a.txt"])).manager.diffs "w/b.txt"
      = none := by
  refine ⟨by decide, by decide⟩

/-- A session whose only record is already `rejected`. -/
def m3c : DiffManager :=
  { snapshots := []
    diffs := [("w/p.txt", { mkRecord "w" "w/p.txt" "1" "2" with status := DiffStatus.rejected })] }

/-- Claim C3 counterexample: the claim says accepting a non-pending record
does nothing.  A direct `acceptFile` on a `rejected` record flips its
status to `accepted` (the method never checks the status). -/
theorem c3_counterexample :
    (mGet? m3c.diffs "w/p.txt").map (fun r => r.status) = some DiffStatus.rejected ∧
    (mGet? (DiffManager.acceptFile m3c "w/p.txt").diffs "w/p.txt").map (fun r => r.status) =
      some DiffStatus.accepted := by
  refine ⟨by decide, by decide⟩

/-- Disk with a non-empty real file and an empty staged copy of it. -/
def fs6c : FS := [("w/a.txt", "x"), ("w/.claude/proposed/a.txt", "")]

/-- Claim C6 counterexample: the claim says every record (also those from
`loadStagedChanges`) has `isDeleted = true` iff `before` is non-empty and
`after` is empty.  The staged record for an emptied file has
`before = "x" ≠ ""`, `after = ""`, yet `isDeleted = false` — the staged
walk hard-codes `isDeleted: false`. -/
theorem c6_counterexample :
    (mGet? (DiffManager.loadProposedChanges emptyManager "w" fs6c "w/.claude/proposed").manager.diffs
        "w/a.txt").map (fun r => (r.before, r.after, r.isDeleted)) =
      some ("x", "", false) := by
  decide

/-- A session already holding one pending record from an earlier cycle. -/
def m7c : DiffManager :=
  { snapshots := [], diffs := [("w/old.txt", mkRecord "w" "w/old.txt" "1" "2")] }

/-- Disk where the only staged file equals its real counterpart. -/
def fs7c : FS := [("w/a.txt", "same"), ("w/.claude/proposed/a.txt", "same")]

/-- Claim C7 counterexample: the claim says a call producing zero records
fires no notification.  This `loadStagedChanges` call produces zero records
(the staged file is identical to the real one, and the diff map is returned
unchanged), yet it fires, because the code tests the size of the un-cleared
diff map, which still holds the record of an earlier call. -/
theorem c7_counterexample :
    (DiffManager.loadProposedChanges m7c "w" fs7c "w/.claude/proposed").manager.diffs
      = m7c.diffs ∧
    (DiffManager.loadProposedChanges m7c "w" fs7c "w/.claude/proposed").fired = true := by
  refine ⟨by decide, by decide⟩

/-- Claim C2 (amended): `computeDiffs(paths)` first discards every existing
diff record (`this.diffs.clear()`), so no record for a path outside `paths`
survives the call; each path in `paths` whose snapshot differs from disk
gets a fresh pending record; snapshots are untouched.  Records therefore
persist only across snapshot captures and `loadStagedChanges` calls, not
across `computeDiffs` calls. -/
theorem c2_compute_diffs_frame (m : DiffManager) (root : String) (fs : FS)
    (paths : List String) (p : String) :
    (DiffManager.computeDiffs m root fs (some paths)).manager.snapshots = m.snapshots ∧
    (p ∉ paths →
      mGet? (DiffManager.computeDiffs m root fs (some paths)).manager.diffs p = none) ∧
    (p ∈ paths → (mGet? m.snapshots p).getD "" ≠ (fsRead? fs p).getD "" →
      mGet? (DiffManager.computeDiffs m root fs (some paths)).manager.diffs p =
        some (mkRecord root p ((mGet? m.snapshots p).getD "") ((fsRead? fs p).getD ""))) := by
  refine ⟨rfl, ?_, ?_⟩
  · intro hp
    show mGet? (paths.foldl (computeStep m.snapshots root fs) []) p = none
    rw [computeFold_frame m.snapshots root fs paths [] p hp]
    rfl
  · intro hp hne
    exact computeFold_mem m.snapshots root fs paths [] p hp hne

/-- Session and disk used to instantiate the C2 theorem: one stale record
(`w/old.txt`) and one snapshotted, changed path (`w/a.txt`). -/
def m2w : DiffManager :=
  { snapshots := [("w/a.txt", "hello")]
    diffs := [("w/old.txt", mkRecord "w" "w/old.txt" "1" "2")] }

def fs2w : FS := [("w/a.txt", "hello world")]

theorem c2_witness :
    mGet? (DiffManager.computeDiffs m2w "w" fs2w (some ["w/a.txt"])).manager.diffs "w/old.txt"
      = none ∧
    mGet? (DiffManager.computeDiffs m2w "w" fs2w (some ["w/a.txt"])).manager.diffs "w/a.txt"
      = some (mkRecord "w" "w/a.txt" "hello" "hello world") := by
  constructor
  · exact (c2_compute_diffs_frame m2w "w" fs2w ["w/a.txt"] "w/old.txt").2.1 (by decide)
  · exact (c2_compute_diffs_frame m2w "w" fs2w ["w/a.txt"] "w/a.txt").2.2 (by decide) (by decide)

/-- Claim C3 (amended): the bulk operations do skip terminal records — for
every record whose status is not `pending`, `acceptAll` and `rejectAll`
leave the record and (for `rejectAll`) the disk content at its path
unchanged.  The single-file `acceptFile`/`rejectFile` however apply to any
existing record regardless of its status (see the counterexample), so
terminality holds only through the bulk operations.  `keysMatch` states
that each record is stored under its own `filePath`, which is true of every
record the manager itself creates. -/
theorem c3_bulk_skips_terminal (m : DiffManager) (fs : FS) (p : String) (d : FileDiff)
    (hwf : keysMatch m) (h : mGet? m.diffs p = some d) (hs : d.status ≠ .pending) :
    mGet? (DiffManager.acceptAll m).diffs p = some d ∧
    mGet? (DiffManager.rejectAll m fs).manager.diffs p = some d ∧
    fsRead? (DiffManager.rejectAll m fs).fs p = fsRead? fs p := by
  refine ⟨?_, ?_, ?_⟩
  · exact acceptAllGo_preserves p d _ m hwf h hs
  · exact (rejectAllGo_preserves p d _ m fs hwf h hs).1
  · exact (rejectAllGo_preserves p d _ m fs hwf h hs).2

/-- A terminal (accepted) record next to a pending one. -/
def r3w : FileDiff := { mkRecord "w" "w/t.txt" "1" "2" with status := DiffStatus.accepted }

def m3w : DiffManager :=
  { snapshots := []
    diffs := [("w/t.txt", r3w), ("w/q.txt", mkRecord "w" "w/q.txt" "a" "b")] }

def fs3w : FS := [("w/t.txt", "2"), ("w/q.txt", "b")]

theorem c3_witness :
    mGet? (DiffManager.acceptAll m3w).diffs "w/t.txt" = some r3w ∧
    mGet? (DiffManager.rejectAll m3w fs3w).manager.diffs "w/t.txt" = some r3w ∧
    fsRead? (DiffManager.rejectAll m3w fs3w).fs "w/t.txt" = fsRead? fs3w "w/t.txt" :=
  c3_bulk_skips_terminal m3w fs3w "w/t.txt" r3w (by unfold keysMatch; decide)
    (by decide) (by decide)

/-- Claim C5: for an existing record, `rejectFile` succeeds whenever the
file exists in the `isNew` case: the record becomes `rejected`, a non-new
file is rewritten on disk to exactly `before` (round-trip restoration), and
a new file is deleted from disk. -/
theorem c5_reject_file_restores (m : DiffManager) (fs : FS) (p : String) (d : FileDiff)
    (h : mGet? m.diffs p = some d)
    (hex : d.isNew = true → fsExistsSync fs p = true) :
    (DiffManager.rejectFile m fs p).err = none ∧
    mGet? (DiffManager.rejectFile m fs p).manager.diffs p =
      some { d with status := DiffStatus.rejected } ∧
    (d.isNew = true → fsRead? (DiffManager.rejectFile m fs p).fs p = none) ∧
    (d.isNew = false → fsRead? (DiffManager.rejectFile m fs p).fs p = some d.before) := by
  by_cases hn : d.isNew = true
  · have hexx : (mGet? fs p).isSome = true := hex hn
    have hu : fsUnlinkSync? fs p = some (fs.filter (fun e => !decide (e.1 = p))) := by
      unfold fsUnlinkSync?
      rw [if_pos hexx]
    rw [rejectFile_eq_new_exists h hn hu]
    refine ⟨rfl, ?_, ?_, ?_⟩
    · exact mGet?_set_self _ _ _
    · intro _
      exact mGet?_removeKey_self fs p
    · intro hf
      rw [hn] at hf
      cases hf
  · have hn' : d.isNew = false := by
      cases hh : d.isNew
      · rfl
      · exact absurd hh hn
    rw [rejectFile_eq_mod h hn']
    refine ⟨rfl, mGet?_set_self _ _ _, ?_, ?_⟩
    · intro hf
      exact absurd hf hn
    · intro _
      exact mGet?_set_self fs p d.before

def m5w : DiffManager :=
  { snapshots := [], diffs := [("w/f.txt", mkRecord "w" "w/f.txt" "old" "new")] }

def fs5w : FS := [("w/f.txt", "new")]

theorem c5_witness :
    (DiffManager.rejectFile m5w fs5w "w/f.txt").err = none ∧
    mGet? (DiffManager.rejectFile m5w fs5w "w/f.txt").manager.diffs "w/f.txt" =
      some { mkRecord "w" "w/f.txt" "old" "new" with status := DiffStatus.rejected } ∧
    ((mkRecord "w" "w/f.txt" "old" "new").isNew = true →
      fsRead? (DiffManager.rejectFile m5w fs5w "w/f.txt").fs "w/f.txt" = none) ∧
    ((mkRecord "w" "w/f.txt" "old" "new").isNew = false →
      fsRead? (DiffManager.rejectFile m5w fs5w "w/f.txt").fs "w/f.txt" =
        some (mkRecord "w" "w/f.txt" "old" "new").before) :=
  c5_reject_file_restores m5w fs5w "w/f.txt" (mkRecord "w" "w/f.txt" "old" "new")
    (by decide) (by decide)

/-- Claim C6 (amended): every record `computeDiffs` stores satisfies the
full §3 invariant (`recordInvariant`), including the `isDeleted`
characterisation; every record newly stored by `loadStagedChanges`
satisfies the invariant except that `isDeleted` is constantly `false`
(`stagedRecordInvariant`) — the `isDeleted`-iff direction fails there for
an emptied staged file (see the counterexample). -/
theorem c6_record_invariants (m : DiffManager) (root pd : String) (fs : FS)
    (cp : Option (List String)) (p : String) (r : FileDiff) :
    (mGet? (DiffManager.computeDiffs m root fs cp).manager.diffs p = some r →
      recordInvariant r) ∧
    (mGet? (DiffManager.loadProposedChanges m root fs pd).manager.diffs p = some r →
      mGet? m.diffs p ≠ some r → stagedRecordInvariant r) := by
  constructor
  · intro h
    have h2 : mGet? ((cp.getD (m.snapshots.map (fun e => e.1))).foldl
        (computeStep m.snapshots root fs) []) p = some r := h
    rcases computeFold_provenance m.snapshots root fs _ [] p r h2 with h3 | h3
    · simp [mGet?] at h3
    · obtain ⟨_, hne, hr⟩ := h3
      rw [hr]
      exact mkRecord_invariant root p _ _ hne
  · intro h hnew
    unfold DiffManager.loadProposedChanges at h
    by_cases hd : dirExistsSync fs pd = true
    · rw [if_pos hd] at h
      have h2 : mGet? ((fs.filter (fun e => strIsUnder (pd ++ "/") e.1)).foldl
          (loadStep root pd fs) m.diffs) p = some r := h
      rcases loadFold_provenance root pd fs _ m.diffs p r h2 with h3 | h3
      · exact absurd h3 hnew
      · obtain ⟨e, _, hne, _, hr⟩ := h3
        rw [hr]
        exact loadRec_invariant root pd fs e hne
    · rw [if_neg hd] at h
      exact absurd h hnew

/-- Manager/disk instantiating both halves of the C6 theorem: a changed
snapshotted file for `computeDiffs` and a fresh staged file for
`loadProposedChanges`. -/
def m6w : DiffManager := { snapshots := [("w/a.txt", "hello")], diffs := [] }

def fs6w : FS := [("w/a.txt", "hello world"), ("w/.claude/proposed/b.txt", "nb")]

theorem c6_witness :
    (mGet? (DiffManager.computeDiffs m6w "w" fs6w (some ["w/a.txt"])).manager.diffs "w/a.txt"
        = some (mkRecord "w" "w/a.txt" "hello" "hello world") ∧
      recordInvariant (mkRecord "w" "w/a.txt" "hello" "hello world")) ∧
    (mGet? (DiffManager.loadProposedChanges m6w "w" fs6w "w/.claude/proposed").manager.diffs
          "w/b.txt"
        = some (loadRec "w" "w/.claude/proposed" fs6w ("w/.claude/proposed/b.txt", "nb")) ∧
      stagedRecordInvariant
        (loadRec "w" "w/.claude/proposed" fs6w ("w/.claude/proposed/b.txt", "nb"))) := by
  constructor
  · refine ⟨by decide, ?_⟩
    exact (c6_record_invariants m6w "w" "w/.claude/proposed" fs6w (some ["w/a.txt"])
      "w/a.txt" (mkRecord "w" "w/a.txt" "hello" "hello world")).1 (by decide)
  · refine ⟨by decide, ?_⟩
    exact (c6_record_invariants m6w "w" "w/.claude/proposed" fs6w (some ["w/a.txt"])
      "w/b.txt" (loadRec "w" "w/.claude/proposed" fs6w ("w/.claude/proposed/b.txt", "nb"))).2
      (by decide) (by decide)

/-- Claim C7 (amended): both ingestion operations fire the "diffs ready"
notification at most once per call (a single flag per call in the
embedding).  `computeDiffs` fires iff at least one given path differs
between snapshot and disk — equivalently, iff the call produced at least
one record, since it clears the map first.  `loadStagedChanges` however
tests the size of the un-cleared map: whenever the staging directory exists
and the session already holds any record, it fires even if the call itself
produced zero records (see the counterexample). -/
theorem c7_fire_policy (m : DiffManager) (root pd : String) (fs : FS)
    (paths : List String) :
    ((DiffManager.computeDiffs m root fs (some paths)).fired = true ↔
      ∃ fp ∈ paths, (mGet? m.snapshots fp).getD "" ≠ (fsRead? fs fp).getD "") ∧
    (dirExistsSync fs pd = true → m.diffs ≠ [] →
      (DiffManager.loadProposedChanges m root fs pd).fired = true) := by
  constructor
  · show decide (0 < (paths.foldl (computeStep m.snapshots root fs) []).length) = true ↔ _
    rw [decide_eq_true_iff]
    constructor
    · intro hlen
      by_contra hno
      push_neg at hno
      have hskip : paths.foldl (computeStep m.snapshots root fs) [] = [] :=
        computeFold_all_skip m.snapshots root fs paths [] hno
      rw [hskip] at hlen
      simp at hlen
    · rintro ⟨fp, hfp, hne⟩
      have hmem := computeFold_mem m.snapshots root fs paths [] fp hfp hne
      have hnn : paths.foldl (computeStep m.snapshots root fs) [] ≠ [] := by
        intro hnil
        rw [hnil] at hmem
        simp [mGet?] at hmem
      exact List.length_pos.mpr hnn
  · intro hd hne
    unfold DiffManager.loadProposedChanges
    rw [if_pos hd]
    show decide (0 <
      ((fs.filter (fun e => strIsUnder (pd ++ "/") e.1)).foldl
        (loadStep root pd fs) m.diffs).length) = true
    rw [decide_eq_true_iff]
    exact List.length_pos.mpr (loadFold_ne_nil root pd fs _ m.diffs hne)

/-- Session and disk instantiating both halves of the C7 theorem. -/
def m7w : DiffManager :=
  { snapshots := [("w/a.txt", "1")]
    diffs := [("w/z.txt", mkRecord "w" "w/z.txt" "p" "q")] }

def fs7w : FS := [("w/a.txt", "2"), ("w/.claude/proposed/c.txt", "cc")]

theorem c7_witness :
    (DiffManager.computeDiffs m7w "w" fs7w (some ["w/a.txt"])).fired = true ∧
    (DiffManager.loadProposedChanges m7w "w" fs7w "w/.claude/proposed").fired = true := by
  constructor
  · exact (c7_fire_policy m7w "w" "w/.claude/proposed" fs7w ["w/a.txt"]).1.mpr
      ⟨"w/a.txt", by decide, by decide⟩
  · exact (c7_fire_policy m7w "w" "w/.claude/proposed" fs7w ["w/a.txt"]).2
      (by decide) (by decide)

/-- Claim C8: every record newly stored by `loadStagedChanges` reads the
real file's current content as `before` (empty when absent), the staged
file's content as `after` (the staged path being the staging root joined
with the record's relative path), and always carries `isDeleted = false`.
The `Nodup` hypothesis says disk paths are unique, true of any real
filesystem. -/
theorem c8_staged_records (m : DiffManager) (root pd : String) (fs : FS)
    (p : String) (r : FileDiff)
    (hnd : (fs.map (fun e => e.1)).Nodup)
    (h : mGet? (DiffManager.loadProposedChanges m root fs pd).manager.diffs p = some r)
    (hnew : mGet? m.diffs p ≠ some r) :
    r.isDeleted = false ∧
    r.filePath = p ∧
    r.before = (fsRead? fs p).getD "" ∧
    fsRead? fs (pd ++ "/" ++ r.relativePath) = some r.after := by
  unfold DiffManager.loadProposedChanges at h
  by_cases hd : dirExistsSync fs pd = true
  · rw [if_pos hd] at h
    have h2 : mGet? ((fs.filter (fun e => strIsUnder (pd ++ "/") e.1)).foldl
        (loadStep root pd fs) m.diffs) p = some r := h
    rcases loadFold_provenance root pd fs _ m.diffs p r h2 with h3 | h3
    · exact absurd h3 hnew
    · obtain ⟨e, hmem, hne, hp, hr⟩ := h3
      have hmf := List.mem_filter.mp hmem
      have hunder : strIsUnder (pd ++ "/") e.1 = true := by
        simpa using hmf.2
      have hjoin : (pd ++ "/") ++ strStrip (pd ++ "/") e.1 = e.1 :=
        strStrip_append (pd ++ "/") e.1 hunder
      subst hp
      rw [hr]
      refine ⟨rfl, rfl, rfl, ?_⟩
      show fsRead? fs ((pd ++ "/") ++ strStrip (pd ++ "/") e.1) = some e.2
      rw [hjoin]
      exact mGet?_of_mem_nodup hnd hmf.1
  · rw [if_neg hd] at h
    exact absurd h hnew

/-- Disk instantiating the C8 (and C9) theorem: a staged edit of
`lib/util.ts`. -/
def fs8w : FS := [("w/lib/util.ts", "old"), ("w/.claude/proposed/lib/util.ts", "new")]

/-- The staged record `loadProposedChanges` produces on `fs8w`. -/
def r8w : FileDiff := loadRec "w" "w/.claude/proposed" fs8w ("w/.claude/proposed/lib/util.ts", "new")

theorem c8_witness :
    r8w.isDeleted = false ∧
    r8w.filePath = "w/lib/util.ts" ∧
    r8w.before = (fsRead? fs8w "w/lib/util.ts").getD "" ∧
    fsRead? fs8w ("w/.claude/proposed" ++ "/" ++ r8w.relativePath) = some r8w.after :=
  c8_staged_records emptyManager "w" "w/.claude/proposed" fs8w "w/lib/util.ts" r8w
    (by decide) (by decide) (by decide)

/-- Claim C9: `acceptFile` performs no filesystem access — in the embedding
its type takes no filesystem and returns none, mirroring the method body,
which only mutates the record's status and the snapshot baseline.  For an
existing record it marks it `accepted` and re-bases the snapshot to
`after`; consequently the disk content at the path (which for a
`loadStagedChanges` record equals the record's `before`) is left exactly as
it was — the staged `after` content is never copied onto the real file. -/
theorem c9_accept_file_pure (m : DiffManager) (fs : FS) (p : String) (r : FileDiff)
    (h : mGet? m.diffs p = some r)
    (hb : (fsRead? fs p).getD "" = r.before) :
    mGet? (DiffManager.acceptFile m p).diffs p = some { r with status := DiffStatus.accepted } ∧
    mGet? (DiffManager.acceptFile m p).snapshots p = some r.after ∧
    (fsRead? fs p).getD "" = r.before := by
  rw [acceptFile_eq_some h]
  exact ⟨mGet?_set_self _ _ _, mGet?_set_self _ _ _, hb⟩

/-- The session produced by loading the staged changes of `fs8w`. -/
def m9w : DiffManager :=
  (DiffManager.loadProposedChanges emptyManager "w" fs8w "w/.claude/proposed").manager

theorem c9_witness :
    mGet? (DiffManager.acceptFile m9w "w/lib/util.ts").diffs "w/lib/util.ts" =
      some { r8w with status := DiffStatus.accepted } ∧
    mGet? (DiffManager.acceptFile m9w "w/lib/util.ts").snapshots "w/lib/util.ts" =
      some r8w.after ∧
    (fsRead? fs8w "w/lib/util.ts").getD "" = r8w.before :=
  c9_accept_file_pure m9w fs8w "w/lib/util.ts" r8w (by decide) (by decide)

/-- Claim C10: rejecting an `isNew` record whose path is absent from disk —
the normal situation for a record created by `loadStagedChanges` for a
newly staged file, where only the staging copy exists — raises the
`unlinkSync` error; the exception escapes before the status assignment, so
the manager (hence the record, still `pending` if it was) and the disk are
left untouched. -/
theorem c10_reject_new_missing_errors (m : DiffManager) (fs : FS) (p : String)
    (r : FileDiff) (h : mGet? m.diffs p = some r) (hn : r.isNew = true)
    (habs : fsExistsSync fs p = false) :
    (DiffManager.rejectFile m fs p).err.isSome = true ∧
    (DiffManager.rejectFile m fs p).manager = m ∧
    (DiffManager.rejectFile m fs p).fs = fs ∧
    mGet? (DiffManager.rejectFile m fs p).manager.diffs p = some r := by
  have habs2 : (mGet? fs p).isSome = false := habs
  have hu : fsUnlinkSync? fs p = none := by
    unfold fsUnlinkSync?
    have hnot : ¬((mGet? fs p).isSome = true) := by simp [habs2]
    rw [if_neg hnot]
  rw [rejectFile_eq_new_missing h hn hu]
  exact ⟨rfl, rfl, rfl, h⟩

def m10w : DiffManager :=
  { snapshots := [], diffs := [("w/new.txt", mkRecord "w" "w/new.txt" "" "hi")] }

def fs10w : FS := [("w/other.txt", "y")]

theorem c10_witness :
    (DiffManager.rejectFile m10w fs10w "w/new.txt").err.isSome = true ∧
    (DiffManager.rejectFile m10w fs10w "w/new.txt").manager = m10w ∧
    (DiffManager.rejectFile m10w fs10w "w/new.txt").fs = fs10w ∧
    mGet? (DiffManager.rejectFile m10w fs10w "w/new.txt").manager.diffs "w/new.txt" =
      some (mkRecord "w" "w/new.txt" "" "hi") :=
  c10_reject_new_missing_errors m10w fs10w "w/new.txt" (mkRecord "w" "w/new.txt" "" "hi")
    (by decide) (by decide) (by decide)

end ClaudeDiff
